import Mathlib

/-!
# go-wpfeedreader: a shallow embedding of `main.go`

Go strings are modelled by `String` (the texts reaching the program come out of
the XML decoder, which only yields valid UTF-8).  Nil pointers are `Option`
values, a nil dereference is the result `none`.  Library calls the program
makes (`fmt.Sprintf`, `regexp`, `time.Parse`, `os`, `net/http`) are modelled
by the small definitions below, restricted to the behaviour the program uses.
-/

namespace WPFeed

/-! ## fmt.Sprintf -/

/-- An operand of `fmt.Sprintf`: the source passes `int`-like values and strings. -/
inductive FmtArg where
  | int (n : Int)
  | str (s : String)

/-- The verb `%d` on an integer: plain decimal, a leading `-` for negatives, no padding. -/
def fmtInt : Int → String
  | Int.ofNat n => Nat.repr n
  | Int.negSucc n => "-" ++ Nat.repr (n + 1)

/-- Go's rendering of an operand inside a bad-verb marker, `type=value`. -/
def FmtArg.typed : FmtArg → String
  | FmtArg.int n => "int=" ++ fmtInt n
  | FmtArg.str s => "string=" ++ s

/-- Operands left over once the format is exhausted: `%!(EXTRA type=value, ...)`. -/
def fmtExtra : List FmtArg → String
  | [] => ""
  | a :: rest =>
    "%!(EXTRA " ++ a.typed ++ String.join (rest.map fun b => ", " ++ b.typed) ++ ")"

/-- The interpreter of a format string, for the plain verbs `%d`, `%s` and
`%%` (the formats of `main.go`, lines 81 and 135, use no other); a lone `%`
at the end gives `%!(NOVERB)`.  Other verbs, flags and widths are outside
this fragment: their characters are copied. -/
def sprintfAux : List Char → List FmtArg → String
  | [], args => fmtExtra args
  | '%' :: '%' :: fmt, args => "%" ++ sprintfAux fmt args
  | '%' :: 'd' :: fmt, FmtArg.int n :: args => fmtInt n ++ sprintfAux fmt args
  | '%' :: 'd' :: fmt, FmtArg.str s :: args =>
    "%!d(" ++ (FmtArg.str s).typed ++ ")" ++ sprintfAux fmt args
  | '%' :: 'd' :: fmt, [] => "%!d(MISSING)" ++ sprintfAux fmt []
  | '%' :: 's' :: fmt, FmtArg.str s :: args => s ++ sprintfAux fmt args
  | '%' :: 's' :: fmt, FmtArg.int n :: args =>
    "%!s(" ++ (FmtArg.int n).typed ++ ")" ++ sprintfAux fmt args
  | '%' :: 's' :: fmt, [] => "%!s(MISSING)" ++ sprintfAux fmt []
  | ['%'], args => "%!(NOVERB)" ++ fmtExtra args
  | c :: fmt, args => String.singleton c ++ sprintfAux fmt args

/-- The call `fmt.Sprintf(format, args...)`. -/
def Sprintf (format : String) (args : List FmtArg) : String :=
  sprintfAux format.data args

/-! ## The data model (`main.go` lines 21-41, 76-78) -/

/-- A `time.Time` as the program observes it: the wall-clock fields in the
zone of the value (`Year()`, `Month()`, ...), the nanoseconds and the zone
offset in seconds east of UTC. -/
structure Time where
  year : Int
  month : Nat
  day : Nat
  hour : Nat
  minute : Nat
  second : Nat
  nsec : Nat
  offset : Int
  deriving DecidableEq, Repr

/-- The days of a month, `time.daysIn`. -/
def daysIn (month : Nat) (year : Int) : Nat :=
  if month = 2 then
    if year % 4 = 0 ∧ (year % 100 ≠ 0 ∨ year % 400 = 0) then 29 else 28
  else if month = 4 ∨ month = 6 ∨ month = 9 ∨ month = 11 then 30
  else 31

/-- A timestamp whose calendar and clock fields are in range. -/
def Time.valid (t : Time) : Prop :=
  1 ≤ t.month ∧ t.month ≤ 12 ∧ 1 ≤ t.day ∧ t.day ≤ daysIn t.month t.year ∧
    t.hour < 24 ∧ t.minute < 60 ∧ t.second < 60

instance (t : Time) : Decidable t.valid := by
  unfold Time.valid; infer_instance

/-- `type Attachment struct { URL string; Filename string }` -/
structure Attachment where
  URL : String
  Filename : String
  deriving DecidableEq, Repr

/-- `type PubDate struct { time *time.Time }`: `none` is the nil pointer. -/
structure PubDate where
  time : Option Time
  deriving DecidableEq, Repr

/-- `type Item struct` -/
structure Item where
  Title : String
  Link : String
  Description : String
  Attachment : Attachment
  Category : List String
  PubDate : PubDate
  deriving DecidableEq, Repr

/-! ## regexp

The matcher follows the leftmost-first rule of Go's `regexp`: the match that
starts earliest wins, and among the matches starting there the one a
backtracking search meets first (an alternative before the next one, one more
iteration of a loop before leaving it).  Positions count characters. -/

/-- The regular expressions needed for `urlregex`. -/
inductive Regex where
  | empty
  | char (c : Char)
  | any
  | digit
  | seq (a b : Regex)
  | alt (a b : Regex)
  | quest (a : Regex)
  | star (a : Regex)
  | plus (a : Regex)
  | group (n : Nat) (a : Regex)
  deriving DecidableEq, Repr

/-- The capture slots of a thread, `cap []int` in Go: slots `2n` and `2n+1`
hold the start and the end of group `n`; `none` is Go's `-1`. -/
abbrev Caps := List (Option Nat)

/-- What remains to be matched after a sub-expression: it receives the rest of
the input, the position and the capture slots. -/
abbrev Cont := List Char → Nat → Caps → Option Caps

/-- A sub-expression run at a given input, position and capture slots. -/
abbrev Matcher := List Char → Nat → Caps → Cont → Option Caps

/-- The back edge of a loop, reached at position `p` after an iteration: one
more iteration is preferred to leaving the loop, and an iteration that ends
where it began is dropped (Go's matcher has visited the loop at that position
already).  An iteration consumes at least one character, so the fuel
`length + 1` given by `Regex.run` is never used up (`loopRun_fuel`). -/
def loopRun (body : Matcher) : Nat → Matcher
  | 0, s, p, c, k => k s p c
  | fuel + 1, s, p, c, k =>
    match body s p c
        (fun s' p' c' => if p < p' then loopRun body fuel s' p' c' k else none) with
    | some r => some r
    | none => k s p c

/-- The prioritised search for a match of a sub-expression followed by `k`. -/
def Regex.run : Regex → Matcher
  | Regex.empty => fun s p c k => k s p c
  | Regex.char x => fun s p c k =>
    match s with
    | [] => none
    | y :: rest => if y = x then k rest (p + 1) c else none
  | Regex.any => fun s p c k =>
    match s with
    | [] => none
    | y :: rest => if y ≠ '\n' then k rest (p + 1) c else none
  | Regex.digit => fun s p c k =>
    match s with
    | [] => none
    | y :: rest => if '0' ≤ y ∧ y ≤ '9' then k rest (p + 1) c else none
  | Regex.seq a b => fun s p c k => a.run s p c (fun s' p' c' => b.run s' p' c' k)
  | Regex.alt a b => fun s p c k =>
    match a.run s p c k with
    | some r => some r
    | none => b.run s p c k
  | Regex.quest a => fun s p c k =>
    match a.run s p c k with
    | some r => some r
    | none => k s p c
  | Regex.plus a => fun s p c k =>
    a.run s p c (fun s' p' c' =>
      if p < p' then loopRun a.run (s'.length + 1) s' p' c' k else k s' p' c')
  | Regex.star a => fun s p c k =>
    match a.run s p c (fun s' p' c' =>
      if p < p' then loopRun a.run (s'.length + 1) s' p' c' k else k s' p' c') with
    | some r => some r
    | none => k s p c
  | Regex.group n a => fun s p c k =>
    a.run s p (c.set (2 * n) (some p)) (fun s' p' c' => k s' p' (c'.set (2 * n + 1) (some p')))

/-- Two continuations agree on what a sub-expression run from `s` at `p` can
hand them: a rest of the input and the position that goes with it. -/
def ContAgree (s : List Char) (p : Nat) (k1 k2 : Cont) : Prop :=
  ∀ (s' : List Char) (p' : Nat) (c' : Caps),
    s'.length + p' = s.length + p → p ≤ p' → k1 s' p' c' = k2 s' p' c'

/-- A matcher that only calls its continuation on a rest of its input, at the
matching position. -/
def GoodMatcher (m : Matcher) : Prop :=
  ∀ (s : List Char) (p : Nat) (c : Caps) (k1 k2 : Cont),
    ContAgree s p k1 k2 → m s p c k1 = m s p c k2

/-- A result of a sub-expression is a result of its continuation, called on a
rest of the input at the matching position with as many capture slots. -/
def Returns (m : Matcher) : Prop :=
  ∀ (s : List Char) (p : Nat) (c : Caps) (k : Cont) (res : Caps),
    m s p c k = some res →
    ∃ (s' : List Char) (p' : Nat) (c' : Caps),
      s'.length + p' = s.length + p ∧ p ≤ p' ∧ c'.length = c.length ∧
        k s' p' c' = some res

/-- A literal string, character by character. -/
def Regex.lit (s : String) : Regex :=
  s.data.foldr (fun c r => Regex.seq (Regex.char c) r) Regex.empty

/-- Concatenation of a list of expressions. -/
def Regex.cat : List Regex → Regex
  | [] => Regex.empty
  | r :: rs => Regex.seq r (Regex.cat rs)

/-- A compiled expression, `*regexp.Regexp`: the program and `NumSubexp()`. -/
structure Regexp where
  prog : Regex
  numSubexp : Nat

/-- The unanchored search of `doExecute`: the first start position, from `p`
on, at which the expression matches; `s` is the input from `p`. -/
def searchAt (re : Regexp) : List Char → Nat → Option Caps
  | [], p =>
    re.prog.run [] p ((List.replicate (2 * (re.numSubexp + 1)) none).set 0 (some p))
      (fun _ p' c' => some (c'.set 1 (some p')))
  | x :: s, p =>
    match re.prog.run (x :: s) p
        ((List.replicate (2 * (re.numSubexp + 1)) none).set 0 (some p))
        (fun _ p' c' => some (c'.set 1 (some p'))) with
    | some c => some c
    | none => searchAt re s (p + 1)

/-- `re.doExecute(..., s, pos, ...)`: the leftmost-first match at or after `pos`. -/
def Regexp.doExecute (re : Regexp) (text : List Char) (pos : Nat) : Option Caps :=
  searchAt re (text.drop pos) pos

/-- The value of a capture slot (0 for an unset one). -/
def slot (c : Caps) (i : Nat) : Nat := ((c.getD i none).getD 0)

/-- The loop of `(*Regexp).allMatches`: successive non-overlapping matches,
an empty match right after the previous match being ignored.  Each round
moves `pos` forward, so the fuel `length + 2` is never used up
(`allMatchesLoop_fuel`). -/
def allMatchesLoop (re : Regexp) (text : List Char) (n : Nat) :
    Nat → Nat → Nat → Option Nat → List Caps
  | 0, _, _, _ => []
  | fuel + 1, pos, i, prevMatchEnd =>
    if i < n ∧ pos ≤ text.length then
      match re.doExecute text pos with
      | none => []
      | some m =>
        let accept : Bool := !(slot m 1 = pos ∧ some (slot m 0) = prevMatchEnd)
        let pos' : Nat :=
          if slot m 1 = pos then (if pos < text.length then pos + 1 else text.length + 1)
          else slot m 1
        if accept then m :: allMatchesLoop re text n fuel pos' (i + 1) (some (slot m 1))
        else allMatchesLoop re text n fuel pos' i (some (slot m 1))
    else []

/-- The strings of one match: the whole match and each group, `""` for a
group that took no part. -/
def submatchStrings (re : Regexp) (text : List Char) (m : Caps) : List String :=
  (List.range (re.numSubexp + 1)).map fun j =>
    match m.getD (2 * j) none with
    | some b => String.mk ((text.drop b).take (slot m (2 * j + 1) - b))
    | none => ""

/-- `re.FindAllStringSubmatch(s, n)`; a negative `n` asks for all matches.
Go's nil result is the empty list. -/
def Regexp.FindAllStringSubmatch (re : Regexp) (s : String) (n : Int) : List (List String) :=
  let count : Nat := if n < 0 then s.data.length + 1 else n.toNat
  (allMatchesLoop re s.data count (s.data.length + 2) 0 0 none).map (submatchStrings re s.data)

/-- `re.FindStringSubmatch(s)`: the strings of the leftmost match. -/
def Regexp.FindStringSubmatch (re : Regexp) (s : String) : Option (List String) :=
  (re.doExecute s.data 0).map (submatchStrings re s.data)

/-- The regular expression of line 47,
`http(s)?://town.plattekill.ny.us/wp-content/uploads/(\d+)/(\d+)/(.*)+.pdf`.
The dots of the host name and the dot before `pdf` are written without a
backslash in the source, so each is the any-character operator. -/
def urlregex : Regexp :=
  { prog := Regex.cat
      [ Regex.lit "http", Regex.quest (Regex.group 1 (Regex.char 's')),
        Regex.lit "://town", Regex.any, Regex.lit "plattekill", Regex.any,
        Regex.lit "ny", Regex.any, Regex.lit "us/wp-content/uploads/",
        Regex.group 2 (Regex.plus Regex.digit), Regex.char '/',
        Regex.group 3 (Regex.plus Regex.digit), Regex.char '/',
        Regex.plus (Regex.group 4 (Regex.star Regex.any)),
        Regex.any, Regex.lit "pdf" ],
    numSubexp := 4 }

/-- An error of `d.DecodeElement`. -/
structure DecodeError where
  msg : String
  deriving DecidableEq, Repr

/-- `func (a *Attachment) UnmarshalXML` (lines 49-74).  The argument `dec` is
the outcome of `d.DecodeElement(&raw, &start)`; the result is the returned
error (`none` for nil) and the attachment afterwards. -/
def Attachment.UnmarshalXML (a : Attachment) (dec : Except DecodeError String) :
    Option DecodeError × Attachment :=
  match dec with
  | Except.error err => (some err, a)
  | Except.ok raw =>
    match urlregex.FindAllStringSubmatch raw (-1) with
    | [] => (none, a)
    | r0 :: _ =>
      if r0.length < 5 then (none, a)
      else (none, { URL := r0.getD 0 "", Filename := r0.getD 4 "" ++ ".pdf" })

/-- `func (a *Attachment) String() string` -/
def Attachment.String (a : Attachment) : String := a.URL

/-! ## time.Parse with the layout `time.RFC1123Z`

The layout is `"Mon, 02 Jan 2006 15:04:05 -0700"`; the functions follow
`time.parse` of the Go library, element by element of that layout. -/

/-- `time.isDigit` on a character. -/
def isDigitChar (c : Char) : Bool := decide ('0' ≤ c) && decide (c ≤ '9')

/-- The value of a decimal digit. -/
def digitVal (c : Char) : Nat := c.toNat - '0'.toNat

/-- `time.getnum`: a number of one or two digits; with `fixed` two digits are required. -/
def getnum (s : List Char) (fixed : Bool) : Option (Nat × List Char) :=
  match s with
  | [] => none
  | c0 :: rest =>
    if isDigitChar c0 then
      match rest with
      | [] => if fixed then none else some (digitVal c0, rest)
      | c1 :: rest1 =>
        if isDigitChar c1 then some (digitVal c0 * 10 + digitVal c1, rest1)
        else if fixed then none else some (digitVal c0, rest)
    else none

/-- `time.match`: equality of two names up to the case of ASCII letters. -/
def matchFold : List Char → List Char → Bool
  | [], [] => true
  | c1 :: r1, c2 :: r2 => (c1 == c2 || (c1.toLower == c2.toLower)) && matchFold r1 r2
  | _, _ => false

/-- `time.lookup`: the index of the first name of the table that starts the value. -/
def lookup (tab : List String) (val : List Char) : Option (Nat × List Char) :=
  let rec go : List String → Nat → Option (Nat × List Char)
    | [], _ => none
    | v :: rest, i =>
      if v.data.length ≤ val.length ∧ matchFold (val.take v.data.length) v.data then
        some (i, val.drop v.data.length)
      else go rest (i + 1)
  go tab 0

/-- `time.shortDayNames` -/
def shortDayNames : List String := ["Sun", "Mon", "Tue", "Wed", "Thu", "Fri", "Sat"]

/-- `time.shortMonthNames` -/
def shortMonthNames : List String :=
  ["Jan", "Feb", "Mar", "Apr", "May", "Jun", "Jul", "Aug", "Sep", "Oct", "Nov", "Dec"]

/-- `time.cutspace`: drop the leading spaces. -/
def cutspace : List Char → List Char
  | ' ' :: rest => cutspace rest
  | s => s

/-- `time.skip` for a literal consisting of one space: a value that starts
with another character is refused, a run of spaces is removed. -/
def skipSpace (value : List Char) : Option (List Char) :=
  match value with
  | [] => some []
  | c :: _ => if c ≠ ' ' then none else some (cutspace value)

/-- `time.skip` for a literal consisting of one character other than a space. -/
def skipChar (lit : Char) (value : List Char) : Option (List Char) :=
  match value with
  | [] => none
  | c :: rest => if c = lit then some rest else none

/-- The element `2006`: exactly four digits. -/
def getYear (value : List Char) : Option (Int × List Char) :=
  match value with
  | a :: b :: c :: d :: rest =>
    if isDigitChar a && isDigitChar b && isDigitChar c && isDigitChar d then
      some (Int.ofNat (((digitVal a * 10 + digitVal b) * 10 + digitVal c) * 10 + digitVal d), rest)
    else none
  | _ => none

/-- The fraction of a second that may follow the seconds although the layout
has none: a period or comma and a run of digits, of which the first nine count
(`time.parseNanoseconds`). -/
def getFraction (value : List Char) : Nat × List Char :=
  match value with
  | sep :: d :: rest =>
    if (sep == '.' || sep == ',') && isDigitChar d then
      let digits := (d :: rest).takeWhile isDigitChar
      let kept := digits.take 9
      let ns := kept.foldl (fun acc c => acc * 10 + digitVal c) 0
      (ns * 10 ^ (9 - kept.length), (d :: rest).dropWhile isDigitChar)
    else (0, value)
  | _ => (0, value)

/-- The element `-0700`: a sign and four digits; the offset in seconds. -/
def getNumTZ (value : List Char) : Option (Int × List Char) :=
  match value with
  | sign :: h1 :: h2 :: m1 :: m2 :: rest =>
    if isDigitChar h1 && isDigitChar h2 && isDigitChar m1 && isDigitChar m2 then
      let hr := digitVal h1 * 10 + digitVal h2
      let mm := digitVal m1 * 10 + digitVal m2
      if hr > 24 ∨ mm > 60 then none
      else if sign = '+' then some (Int.ofNat ((hr * 60 + mm) * 60), rest)
      else if sign = '-' then some (- Int.ofNat ((hr * 60 + mm) * 60), rest)
      else none
    else none
  | _ => none

/-- The clock part `15:04:05` with an optional fraction: hour, minute, second,
nanoseconds and the rest of the value. -/
def getClock (value : List Char) : Option ((Nat × Nat × Nat × Nat) × List Char) :=
  (getnum value false).bind fun (hour : Nat × List Char) =>
  if 24 ≤ hour.1 then none else
  (skipChar ':' hour.2).bind fun (v : List Char) =>
  (getnum v true).bind fun (min : Nat × List Char) =>
  if 60 ≤ min.1 then none else
  (skipChar ':' min.2).bind fun (v : List Char) =>
  (getnum v true).bind fun (sec : Nat × List Char) =>
  if 60 ≤ sec.1 then none else
  some ((hour.1, min.1, sec.1, (getFraction sec.2).1), (getFraction sec.2).2)

/-- The date part `Mon, 02 Jan 2006`: day, month (from 1), year and the rest
of the value.  The name of the weekday is read and dropped. -/
def getDate (value : List Char) : Option ((Nat × Nat × Int) × List Char) :=
  (lookup shortDayNames value).bind fun (wd : Nat × List Char) =>
  (skipChar ',' wd.2).bind fun (v : List Char) =>
  (skipSpace v).bind fun (v : List Char) =>
  (getnum v true).bind fun (day : Nat × List Char) =>
  (skipSpace day.2).bind fun (v : List Char) =>
  (lookup shortMonthNames v).bind fun (mon : Nat × List Char) =>
  (skipSpace mon.2).bind fun (v : List Char) =>
  (getYear v).bind fun (year : Int × List Char) =>
  some ((day.1, mon.1 + 1, year.1), year.2)

/-- `time.Parse(time.RFC1123Z, value)`; `none` stands for a returned error.
After the elements of the layout no text may remain, and the day has to
exist in the month. -/
def timeParseRFC1123Z (value : String) : Option Time :=
  (getDate value.data).bind fun (d : (Nat × Nat × Int) × List Char) =>
  (skipSpace d.2).bind fun (v : List Char) =>
  (getClock v).bind fun (c : (Nat × Nat × Nat × Nat) × List Char) =>
  (skipSpace c.2).bind fun (v : List Char) =>
  (getNumTZ v).bind fun (zone : Int × List Char) =>
  if zone.2.isEmpty = false then none
  else if d.1.1 < 1 ∨ d.1.1 > daysIn d.1.2.1 d.1.2.2 then none
  else some (Time.mk d.1.2.2 d.1.2.1 d.1.1 c.1.1 c.1.2.1 c.1.2.2.1 c.1.2.2.2 zone.1)

/-- `func (date *PubDate) UnmarshalXML` (lines 84-100).  The argument `dec` is
the outcome of `d.DecodeElement(&raw, &start)`; the result is the returned
error (`none` for nil) and the value afterwards. -/
def PubDate.UnmarshalXML (date : PubDate) (dec : Except DecodeError String) :
    Option DecodeError × PubDate :=
  match dec with
  | Except.error _ => (none, date)
  | Except.ok raw =>
    match timeParseRFC1123Z raw with
    | none => (none, date)
    | some v => (none, { time := some v })

/-! ## The file name of an item -/

/-- `func (date *PubDate) String() string` (line 80): the format
`"%d%d%d-%d%d%d"` applied to year, month, day, hour, minute and second.
`date.time.Year()` dereferences `date.time`; on a nil pointer the call
panics, which is the result `none`. -/
def PubDate.String (date : PubDate) : Option String :=
  match date.time with
  | none => none
  | some t =>
    some (Sprintf "%d%d%d-%d%d%d"
      [FmtArg.int t.year, FmtArg.int t.month, FmtArg.int t.day,
       FmtArg.int t.hour, FmtArg.int t.minute, FmtArg.int t.second])

/-- The inner loop of `main` (lines 133-138): the first category different
from `"Minutes"` rewrites the name and ends the loop. -/
def applyCategory (filename : String) : List String → String
  | [] => filename
  | cat :: rest =>
    if cat != "Minutes" then
      Sprintf "%s_%s.pdf" [FmtArg.str cat, FmtArg.str filename]
    else applyCategory filename rest

/-- The name `main` builds for an item (lines 132-138); `none` when
`item.PubDate.String()` panics. -/
def buildFilename (item : Item) : Option String :=
  match item.PubDate.String with
  | none => none
  | some filename => some (applyCategory filename item.Category)

/-! ## The download loop of `main` (lines 129-169) -/

/-- The contents of a file. -/
abbrev Bytes := List Nat

/-- The files the program can see: a path has contents or does not exist. -/
abbrev FS := String → Option Bytes

/-- Writing `data` at `path`; the other paths are untouched. -/
def FS.write (fs : FS) (path : String) (data : Bytes) : FS :=
  fun q => if q = path then some data else fs q

/-- What the outside world answers during one run.  `createFails path` tells
whether `os.Create(path)` returns an error; `get url` is the outcome of
`http.Get(url)` followed by `io.Copy`: `none` when `http.Get` returns an
error, otherwise the bytes `io.Copy` writes and whether it then reports an
error. -/
structure Env where
  createFails : String → Bool
  get : String → Option (Bytes × Bool)

/-- The branch of the loop body an item ends in. -/
inductive Outcome where
  | alreadyExists
  | createError
  | getError
  | copyError
  | downloaded (copied : Nat)
  deriving DecidableEq, Repr

/-- One round of the loop of `main` for `item` (lines 129-169).  The result
`none` is the panic of `item.PubDate.String()` on a nil time; otherwise the
files afterwards and the branch taken.  `os.Stat(filename)` succeeds when the
path `filename` exists; `os.Create(outputFolder + filename)` creates the file
or truncates it. -/
def processItem (env : Env) (outputFolder : String) (fs : FS) (item : Item) :
    Option (FS × Outcome) :=
  match buildFilename item with
  | none => none
  | some filename =>
    if (fs filename).isSome then some (fs, Outcome.alreadyExists)
    else if env.createFails (outputFolder ++ filename) then some (fs, Outcome.createError)
    else
      match env.get item.Attachment.URL with
      | none => some (fs.write (outputFolder ++ filename) [], Outcome.getError)
      | some (body, copyFails) =>
        if copyFails then
          some (fs.write (outputFolder ++ filename) body, Outcome.copyError)
        else
          some (fs.write (outputFolder ++ filename) body, Outcome.downloaded body.length)

/-- The state of a run of the loop: the files, the outcomes of the items
handled so far (in order) and whether the program has panicked. -/
structure Run where
  fs : FS
  log : List Outcome
  panicked : Bool

/-- The loop `for _, item := range data.Items.ItemList` (line 129): items are
handled in order; a panic ends the program, the remaining items are not
looked at. -/
def mainLoop (env : Env) (outputFolder : String) : FS → List Item → Run
  | fs, [] => { fs := fs, log := [], panicked := false }
  | fs, item :: rest =>
    match processItem env outputFolder fs item with
    | none => { fs := fs, log := [], panicked := true }
    | some (fs1, o) =>
      { fs := (mainLoop env outputFolder fs1 rest).fs,
        log := o :: (mainLoop env outputFolder fs1 rest).log,
        panicked := (mainLoop env outputFolder fs1 rest).panicked }

/-! ## Sample inputs -/

/-- An item of the feed: the minutes of January 2006, published on
2006-01-02 15:04:05 -0700, with the single category `Minutes`. -/
def sampleItem : Item :=
  { Title := "January minutes",
    Link := "http://town.plattekill.ny.us/?p=1",
    Description := "",
    Attachment :=
      { URL := "https://town.plattekill.ny.us/wp-content/uploads/2006/01/jan-minutes.pdf",
        Filename := "jan-minutes.pdf" },
    Category := ["Minutes"],
    PubDate := { time := some (Time.mk 2006 1 2 15 4 5 0 (-25200)) } }

/-- An item whose `pubDate` element held the text `yesterday`: its time is
what `PubDate.UnmarshalXML` leaves in a fresh value. -/
def undatedItem : Item :=
  { Title := "Undated",
    Link := "http://town.plattekill.ny.us/?p=2",
    Description := "",
    Attachment := { URL := "", Filename := "" },
    Category := ["Minutes"],
    PubDate := ((PubDate.mk none).UnmarshalXML (Except.ok "yesterday")).2 }

/-- A world in which every file can be created and every download succeeds
with the four bytes `%PDF`. -/
def sampleEnv : Env :=
  { createFails := fun _ => false,
    get := fun _ => some ([37, 80, 68, 70], false) }

/-- A world in which every file can be created and every `http.Get` fails. -/
def offlineEnv : Env :=
  { createFails := fun _ => false,
    get := fun _ => none }

/-- A world in which every file can be created and every download breaks off
after the two bytes `%P`. -/
def brokenEnv : Env :=
  { createFails := fun _ => false,
    get := fun _ => some ([37, 80], true) }

/-- No file at all. -/
def noFiles : FS := fun _ => none

/-- The output folder `out/` already holds the file of `sampleItem`, with
the contents 1, 2, 3; the working directory holds nothing. -/
def oldFiles : FS := fun q => if q = "out/200612-1545" then some [1, 2, 3] else none

/-! ## Properties of the formatter and of the file name -/

/-- The tag of a present time, field by field. -/
theorem pubDate_string_some (t : Time) :
    PubDate.String { time := some t } =
      some (fmtInt t.year ++ fmtInt t.month ++ fmtInt t.day ++ "-" ++
        fmtInt t.hour ++ fmtInt t.minute ++ fmtInt t.second) := by
  simp [PubDate.String, Sprintf, sprintfAux, fmtExtra, String.append_assoc]
  rfl

/-- The format `"%s_%s.pdf"` applied to two strings. -/
theorem sprintf_category (cat filename : String) :
    Sprintf "%s_%s.pdf" [FmtArg.str cat, FmtArg.str filename] =
      cat ++ "_" ++ filename ++ ".pdf" := by
  simp [Sprintf, sprintfAux, fmtExtra, String.append_assoc]
  rfl

/-- Categories equal to `"Minutes"` are passed over. -/
theorem applyCategory_skip (filename : String) (pre rest : List String)
    (hpre : ∀ x ∈ pre, x = "Minutes") :
    applyCategory filename (pre ++ rest) = applyCategory filename rest := by
  induction pre with
  | nil => rfl
  | cons x xs ih =>
    have hx : x = "Minutes" := hpre x (List.mem_cons_self x xs)
    have hxs : ∀ y ∈ xs, y = "Minutes" := fun y hy => hpre y (List.mem_cons_of_mem x hy)
    simp [applyCategory, hx, ih hxs]

/-- C3, as stated: the tag is not the bare concatenation of the six numbers.
For 2006-01-02 15:04:05 the program renders `200612-1545`, with a hyphen
between the day and the hour. -/
theorem C3_no_separator_fails :
    ¬ (∀ t : Time, t.valid →
        PubDate.String { time := some t } =
          some (fmtInt t.year ++ fmtInt t.month ++ fmtInt t.day ++
            fmtInt t.hour ++ fmtInt t.minute ++ fmtInt t.second)) := by
  intro h
  have h1 := h (Time.mk 2006 1 2 15 4 5 0 (-25200)) (by decide)
  revert h1
  decide

/-- C3, amended: for every timestamp the tag is the unpadded decimal
renderings of year, month, day, hour, minute and second in that order, with
the single character `-` between the day and the hour and nothing else
between the fields. -/
theorem C3_tag_format (t : Time) :
    PubDate.String { time := some t } =
      some (fmtInt t.year ++ fmtInt t.month ++ fmtInt t.day ++ "-" ++
        fmtInt t.hour ++ fmtInt t.minute ++ fmtInt t.second) ∧
    PubDate.String { time := some (Time.mk 2006 1 2 15 4 5 0 (-25200)) } =
      some "200612-1545" :=
  ⟨pubDate_string_some t, by decide⟩

/-- C9: the tag is not injective.  12 January 2006 and 2 November 2006, at the
same time of day, are valid timestamps that differ in month and day and have
the same tag, so two items that carry them and the same categories get the
same file name. -/
theorem C9_tag_collision :
    ∃ t1 t2 : Time, t1.valid ∧ t2.valid ∧ t1.month ≠ t2.month ∧ t1.day ≠ t2.day ∧
      PubDate.String { time := some t1 } = PubDate.String { time := some t2 } ∧
      ∀ (title link desc : String) (att : Attachment) (cats : List String),
        buildFilename (Item.mk title link desc att cats { time := some t1 }) =
          buildFilename (Item.mk title link desc att cats { time := some t2 }) := by
  refine ⟨Time.mk 2006 1 12 15 4 5 0 0, Time.mk 2006 11 2 15 4 5 0 0,
    by decide, by decide, by decide, by decide, by decide, ?_⟩
  intro title link desc att cats
  have h : PubDate.String { time := some (Time.mk 2006 1 12 15 4 5 0 0) } =
      PubDate.String { time := some (Time.mk 2006 11 2 15 4 5 0 0) } := by decide
  simp only [buildFilename, h]

/-- C2: for an item with a present time, let `tag` be `PubDate.String()`.
If the categories are `pre ++ c :: post` with every member of `pre` equal to
`"Minutes"` and `c` different from it, the file name is `c_tag.pdf`, whatever
`post` is; if every category equals `"Minutes"` (or there is none), the file
name is `tag`, without `.pdf`. -/
theorem C2_filename (item : Item) (t : Time) (ht : item.PubDate.time = some t) :
    ∃ tag : String, item.PubDate.String = some tag ∧
      (∀ (pre post : List String) (c : String),
        item.Category = pre ++ c :: post → (∀ x ∈ pre, x = "Minutes") → c ≠ "Minutes" →
          buildFilename item = some (c ++ "_" ++ tag ++ ".pdf")) ∧
      ((∀ x ∈ item.Category, x = "Minutes") → buildFilename item = some tag) := by
  obtain ⟨title, link, desc, att, cats, pd⟩ := item
  obtain ⟨time⟩ := pd
  simp only at ht
  subst ht
  refine ⟨_, pubDate_string_some t, ?_, ?_⟩
  · intro pre post c hcat hpre hc
    simp only at hcat
    subst hcat
    simp only [buildFilename, pubDate_string_some, applyCategory_skip _ pre (c :: post) hpre]
    simp [applyCategory, hc, sprintf_category]
  · intro hall
    simp only at hall
    have h := applyCategory_skip
      (fmtInt t.year ++ fmtInt t.month ++ fmtInt t.day ++ "-" ++
        fmtInt t.hour ++ fmtInt t.minute ++ fmtInt t.second) cats [] hall
    simp only [List.append_nil] at h
    simp only [buildFilename, pubDate_string_some, h, applyCategory]

/-- C2 at two items dated 2006-01-02 15:04:05: categories
`["Minutes", "BoardMeeting", "Other"]` give `BoardMeeting_200612-1545.pdf`,
categories `["Minutes", "Minutes"]` give `200612-1545`. -/
theorem C2_filename_witness :
    buildFilename (Item.mk "t" "l" "d" (Attachment.mk "" "")
        ["Minutes", "BoardMeeting", "Other"]
        { time := some (Time.mk 2006 1 2 15 4 5 0 (-25200)) }) =
      some "BoardMeeting_200612-1545.pdf" ∧
    buildFilename (Item.mk "t" "l" "d" (Attachment.mk "" "") ["Minutes", "Minutes"]
        { time := some (Time.mk 2006 1 2 15 4 5 0 (-25200)) }) =
      some "200612-1545" := by
  constructor
  · obtain ⟨tag, htag, hfirst, _⟩ := C2_filename
      (Item.mk "t" "l" "d" (Attachment.mk "" "") ["Minutes", "BoardMeeting", "Other"]
        { time := some (Time.mk 2006 1 2 15 4 5 0 (-25200)) })
      (Time.mk 2006 1 2 15 4 5 0 (-25200)) rfl
    have h := hfirst ["Minutes"] ["Other"] "BoardMeeting" rfl (by simp) (by decide)
    rw [h]
    have htag2 : tag = "200612-1545" := by
      have h0 : PubDate.String { time := some (Time.mk 2006 1 2 15 4 5 0 (-25200)) } =
          some "200612-1545" := by decide
      rw [h0] at htag
      exact (Option.some.inj htag).symm
    subst htag2
    decide
  · obtain ⟨tag, htag, _, hnone⟩ := C2_filename
      (Item.mk "t" "l" "d" (Attachment.mk "" "") ["Minutes", "Minutes"]
        { time := some (Time.mk 2006 1 2 15 4 5 0 (-25200)) })
      (Time.mk 2006 1 2 15 4 5 0 (-25200)) rfl
    rw [hnone (by simp), ← htag]
    decide

/-! ## Properties of the matcher -/

/-- A loop over a good matcher is a good matcher. -/
theorem loopRun_good (body : Matcher) (hb : GoodMatcher body) :
    ∀ fuel : Nat, GoodMatcher (loopRun body fuel) := by
  intro fuel
  induction fuel with
  | zero =>
    intro s p c k1 k2 h
    simp only [loopRun]
    exact h s p c rfl (Nat.le_refl p)
  | succ fuel ih =>
    intro s p c k1 k2 h
    simp only [loopRun]
    have hk : body s p c
          (fun s' p' c' => if p < p' then loopRun body fuel s' p' c' k1 else none) =
        body s p c
          (fun s' p' c' => if p < p' then loopRun body fuel s' p' c' k2 else none) := by
      apply hb
      intro s' p' c' hlen hle
      by_cases hlt : p < p'
      · simp only [hlt, if_true]
        apply ih
        intro s'' p'' c'' h1 h2
        exact h s'' p'' c'' (by omega) (by omega)
      · simp only [hlt, if_false]
    rw [hk, h s p c rfl (Nat.le_refl p)]

/-- The matcher of an expression only calls its continuation on a rest of its
input. -/
theorem run_good (r : Regex) : GoodMatcher r.run := by
  induction r with
  | empty =>
    intro s p c k1 k2 h
    exact h s p c rfl (Nat.le_refl p)
  | char x =>
    intro s p c k1 k2 h
    cases s with
    | nil => rfl
    | cons y rest =>
      simp only [Regex.run]
      split
      · exact h rest (p + 1) c (by simp; omega) (by omega)
      · rfl
  | any =>
    intro s p c k1 k2 h
    cases s with
    | nil => rfl
    | cons y rest =>
      simp only [Regex.run]
      split
      · exact h rest (p + 1) c (by simp; omega) (by omega)
      · rfl
  | digit =>
    intro s p c k1 k2 h
    cases s with
    | nil => rfl
    | cons y rest =>
      simp only [Regex.run]
      split
      · exact h rest (p + 1) c (by simp; omega) (by omega)
      · rfl
  | seq a b iha ihb =>
    intro s p c k1 k2 h
    simp only [Regex.run]
    apply iha
    intro s' p' c' hlen hle
    apply ihb
    intro s'' p'' c'' h1 h2
    exact h s'' p'' c'' (by omega) (by omega)
  | alt a b iha ihb =>
    intro s p c k1 k2 h
    simp only [Regex.run]
    rw [iha s p c k1 k2 h, ihb s p c k1 k2 h]
  | quest a iha =>
    intro s p c k1 k2 h
    simp only [Regex.run]
    rw [iha s p c k1 k2 h, h s p c rfl (Nat.le_refl p)]
  | star a iha =>
    intro s p c k1 k2 h
    simp only [Regex.run]
    have hk : a.run s p c (fun s' p' c' =>
          if p < p' then loopRun a.run (s'.length + 1) s' p' c' k1 else k1 s' p' c') =
        a.run s p c (fun s' p' c' =>
          if p < p' then loopRun a.run (s'.length + 1) s' p' c' k2 else k2 s' p' c') := by
      apply iha
      intro s' p' c' hlen hle
      by_cases hlt : p < p'
      · simp only [hlt, if_true]
        apply loopRun_good a.run iha
        intro s'' p'' c'' h1 h2
        exact h s'' p'' c'' (by omega) (by omega)
      · simp only [hlt, if_false]
        exact h s' p' c' hlen hle
    rw [hk, h s p c rfl (Nat.le_refl p)]
  | plus a iha =>
    intro s p c k1 k2 h
    simp only [Regex.run]
    apply iha
    intro s' p' c' hlen hle
    by_cases hlt : p < p'
    · simp only [hlt, if_true]
      apply loopRun_good a.run iha
      intro s'' p'' c'' h1 h2
      exact h s'' p'' c'' (by omega) (by omega)
    · simp only [hlt, if_false]
      exact h s' p' c' hlen hle
  | group n a iha =>
    intro s p c k1 k2 h
    simp only [Regex.run]
    apply iha
    intro s' p' c' hlen hle
    exact h s' p' _ hlen hle

/-- The fuel of a loop is never used up: any amount above the length of the
remaining input gives the same result. -/
theorem loopRun_fuel (r : Regex) :
    ∀ (fuel1 fuel2 : Nat) (s : List Char) (p : Nat) (c : Caps) (k : Cont),
      s.length < fuel1 → s.length < fuel2 →
      loopRun r.run fuel1 s p c k = loopRun r.run fuel2 s p c k := by
  intro fuel1
  induction fuel1 with
  | zero => intro fuel2 s p c k h1; omega
  | succ f1 ih =>
    intro fuel2 s p c k h1 h2
    cases fuel2 with
    | zero => omega
    | succ f2 =>
      simp only [loopRun]
      have hk : r.run s p c
            (fun s' p' c' => if p < p' then loopRun r.run f1 s' p' c' k else none) =
          r.run s p c
            (fun s' p' c' => if p < p' then loopRun r.run f2 s' p' c' k else none) := by
        apply run_good r
        intro s' p' c' hlen hle
        by_cases hlt : p < p'
        · simp only [hlt, if_true]
          exact ih f2 s' p' c' k (by omega) (by omega)
        · simp only [hlt, if_false]
      rw [hk]

/-- A result of a loop comes from its continuation. -/
theorem loopRun_returns (body : Matcher) (hb : Returns body) :
    ∀ fuel : Nat, Returns (loopRun body fuel) := by
  intro fuel
  induction fuel with
  | zero =>
    intro s p c k res h
    exact ⟨s, p, c, rfl, Nat.le_refl p, rfl, h⟩
  | succ fuel ih =>
    intro s p c k res h
    simp only [loopRun] at h
    split at h
    · rename_i r hr
      obtain ⟨s1, p1, c1, h1, h2, h3, h4⟩ := hb s p c _ r hr
      by_cases hlt : p < p1
      · simp only [hlt, if_true] at h4
        obtain ⟨s2, p2, c2, g1, g2, g3, g4⟩ := ih s1 p1 c1 k r h4
        cases h
        exact ⟨s2, p2, c2, by omega, by omega, by omega, g4⟩
      · simp only [hlt, if_false] at h4
        cases h4
    · exact ⟨s, p, c, rfl, Nat.le_refl p, rfl, h⟩

/-- A result of an expression comes from its continuation. -/
theorem run_returns (r : Regex) : Returns r.run := by
  induction r with
  | empty =>
    intro s p c k res h
    exact ⟨s, p, c, rfl, Nat.le_refl p, rfl, h⟩
  | char x =>
    intro s p c k res h
    cases s with
    | nil => simp [Regex.run] at h
    | cons y rest =>
      simp only [Regex.run] at h
      split at h
      · exact ⟨rest, p + 1, c, by simp; omega, by omega, rfl, h⟩
      · cases h
  | any =>
    intro s p c k res h
    cases s with
    | nil => simp [Regex.run] at h
    | cons y rest =>
      simp only [Regex.run] at h
      split at h
      · exact ⟨rest, p + 1, c, by simp; omega, by omega, rfl, h⟩
      · cases h
  | digit =>
    intro s p c k res h
    cases s with
    | nil => simp [Regex.run] at h
    | cons y rest =>
      simp only [Regex.run] at h
      split at h
      · exact ⟨rest, p + 1, c, by simp; omega, by omega, rfl, h⟩
      · cases h
  | seq a b iha ihb =>
    intro s p c k res h
    simp only [Regex.run] at h
    obtain ⟨s1, p1, c1, h1, h2, h3, h4⟩ := iha s p c _ res h
    obtain ⟨s2, p2, c2, g1, g2, g3, g4⟩ := ihb s1 p1 c1 k res h4
    exact ⟨s2, p2, c2, by omega, by omega, by omega, g4⟩
  | alt a b iha ihb =>
    intro s p c k res h
    simp only [Regex.run] at h
    split at h
    · rename_i r hr
      cases h
      exact iha s p c k _ hr
    · exact ihb s p c k res h
  | quest a iha =>
    intro s p c k res h
    simp only [Regex.run] at h
    split at h
    · rename_i r hr
      cases h
      exact iha s p c k _ hr
    · exact ⟨s, p, c, rfl, Nat.le_refl p, rfl, h⟩
  | star a iha =>
    intro s p c k res h
    simp only [Regex.run] at h
    split at h
    · rename_i r hr
      cases h
      obtain ⟨s1, p1, c1, h1, h2, h3, h4⟩ := iha s p c _ _ hr
      by_cases hlt : p < p1
      · simp only [hlt, if_true] at h4
        obtain ⟨s2, p2, c2, g1, g2, g3, g4⟩ :=
          loopRun_returns a.run iha (s1.length + 1) s1 p1 c1 k _ h4
        exact ⟨s2, p2, c2, by omega, by omega, by omega, g4⟩
      · simp only [hlt, if_false] at h4
        exact ⟨s1, p1, c1, h1, h2, h3, h4⟩
    · exact ⟨s, p, c, rfl, Nat.le_refl p, rfl, h⟩
  | plus a iha =>
    intro s p c k res h
    simp only [Regex.run] at h
    obtain ⟨s1, p1, c1, h1, h2, h3, h4⟩ := iha s p c _ _ h
    by_cases hlt : p < p1
    · simp only [hlt, if_true] at h4
      obtain ⟨s2, p2, c2, g1, g2, g3, g4⟩ :=
        loopRun_returns a.run iha (s1.length + 1) s1 p1 c1 k _ h4
      exact ⟨s2, p2, c2, by omega, by omega, by omega, g4⟩
    · simp only [hlt, if_false] at h4
      exact ⟨s1, p1, c1, h1, h2, h3, h4⟩
  | group n a iha =>
    intro s p c k res h
    simp only [Regex.run] at h
    obtain ⟨s1, p1, c1, h1, h2, h3, h4⟩ := iha s p _ _ _ h
    exact ⟨s1, p1, c1.set (2 * n + 1) (some p1), h1, h2, by simpa using h3, h4⟩

/-- A match found from position `p` on ends at or after `p`, inside the input. -/
theorem searchAt_end (re : Regexp) :
    ∀ (s : List Char) (p : Nat) (m : Caps), searchAt re s p = some m →
      p ≤ slot m 1 ∧ slot m 1 ≤ p + s.length := by
  have base : ∀ (s : List Char) (p : Nat) (m : Caps),
      re.prog.run s p ((List.replicate (2 * (re.numSubexp + 1)) none).set 0 (some p))
        (fun _ p' c' => some (c'.set 1 (some p'))) = some m →
      p ≤ slot m 1 ∧ slot m 1 ≤ p + s.length := by
    intro s p m h
    obtain ⟨s1, p1, c1, h1, h2, h3, h4⟩ := run_returns re.prog s p _ _ m h
    simp only [Option.some.injEq] at h4
    have hlen : 1 < c1.length := by
      rw [h3]; simp; omega
    have hs : slot m 1 = p1 := by
      rw [← h4]
      simp [slot, List.getD, List.getElem?_set, hlen]
    omega
  intro s
  induction s with
  | nil =>
    intro p m h
    simp only [searchAt] at h
    exact base [] p m h
  | cons x s ih =>
    intro p m h
    simp only [searchAt] at h
    split at h
    · rename_i c hc
      cases h
      exact base (x :: s) p _ hc
    · have := ih (p + 1) m h
      simp only [List.length_cons]
      omega

/-- The fuel of `allMatchesLoop` is never used up: any amount that covers the
positions from `pos` to the end of the text gives the same result. -/
theorem allMatchesLoop_fuel (re : Regexp) (text : List Char) (n : Nat) :
    ∀ (fuel1 fuel2 pos i : Nat) (prev : Option Nat),
      text.length + 1 - pos ≤ fuel1 → text.length + 1 - pos ≤ fuel2 →
      allMatchesLoop re text n fuel1 pos i prev = allMatchesLoop re text n fuel2 pos i prev := by
  intro fuel1
  induction fuel1 with
  | zero =>
    intro fuel2 pos i prev h1 h2
    cases fuel2 with
    | zero => rfl
    | succ f2 =>
      have hpos : ¬ (i < n ∧ pos ≤ text.length) := by omega
      simp [allMatchesLoop, hpos]
  | succ f1 ih =>
    intro fuel2 pos i prev h1 h2
    cases fuel2 with
    | zero =>
      have hpos : ¬ (i < n ∧ pos ≤ text.length) := by omega
      simp [allMatchesLoop, hpos]
    | succ f2 =>
      simp only [allMatchesLoop]
      split
      · rename_i hcond
        cases hm : re.doExecute text pos with
        | none => rfl
        | some m =>
          have hend := searchAt_end re (text.drop pos) pos m hm
          simp only []
          have hstep : ∀ q : Nat, q = (if slot m 1 = pos then
              (if pos < text.length then pos + 1 else text.length + 1) else slot m 1) →
              text.length + 1 - q ≤ f1 ∧ text.length + 1 - q ≤ f2 := by
            intro q hq
            split at hq <;> (try split at hq) <;> omega
          obtain ⟨g1, g2⟩ := hstep _ rfl
          rw [ih f2 _ (i + 1) (some (slot m 1)) g1 g2, ih f2 _ i (some (slot m 1)) g1 g2]
      · rfl

/-! ## Properties of the attachment extraction -/

/-- The first round of `allMatches`: without a match from position 0 there is
no match at all, otherwise the leftmost match is the first one delivered. -/
theorem findAll_first (re : Regexp) (s : String) :
    (re.FindStringSubmatch s = none ∧ re.FindAllStringSubmatch s (-1) = []) ∨
    (∃ m rest, re.FindStringSubmatch s = some m ∧
      re.FindAllStringSubmatch s (-1) = m :: rest) := by
  unfold Regexp.FindStringSubmatch Regexp.FindAllStringSubmatch
  cases h : re.doExecute s.data 0 with
  | none => left; simp [allMatchesLoop, h]
  | some m => right; simp [allMatchesLoop, h]

/-- A match of `urlregex` is delivered as five strings: the whole match and
the four groups. -/
theorem urlregex_submatch_shape (text : List Char) (m : Caps) :
    ∃ whole g1 g2 g3 g4 : String,
      submatchStrings urlregex text m = [whole, g1, g2, g3, g4] :=
  ⟨_, _, _, _, _, rfl⟩

/-- C1: when the text holds a match of `urlregex`, `UnmarshalXML` returns nil,
`URL` is the whole text of the leftmost match (the first entry of
`FindAllStringSubmatch`, which is what `FindStringSubmatch` finds) and
`Filename` is its fourth group followed by `.pdf`; the matches after the
first one (`later`) do not enter the result. -/
theorem C1_first_match (a : Attachment) (raw : String)
    (h : urlregex.FindAllStringSubmatch raw (-1) ≠ []) :
    ∃ (whole g1 g2 g3 g4 : String) (later : List (List String)),
      urlregex.FindAllStringSubmatch raw (-1) = [whole, g1, g2, g3, g4] :: later ∧
      urlregex.FindStringSubmatch raw = some [whole, g1, g2, g3, g4] ∧
      a.UnmarshalXML (Except.ok raw) =
        (none, { URL := whole, Filename := g4 ++ ".pdf" }) := by
  rcases findAll_first urlregex raw with ⟨_, hnil⟩ | ⟨m, rest, hfirst, hall⟩
  · exact absurd hnil h
  · have hm : ∃ caps, m = submatchStrings urlregex raw.data caps := by
      unfold Regexp.FindStringSubmatch at hfirst
      cases hc : urlregex.doExecute raw.data 0 with
      | none => simp [hc] at hfirst
      | some caps => exact ⟨caps, by simpa [hc] using hfirst.symm⟩
    obtain ⟨caps, hcaps⟩ := hm
    obtain ⟨whole, g1, g2, g3, g4, hshape⟩ := urlregex_submatch_shape raw.data caps
    rw [hshape] at hcaps
    subst hcaps
    refine ⟨whole, g1, g2, g3, g4, rest, hall, hfirst, ?_⟩
    simp [Attachment.UnmarshalXML, hall]

/-- C1 on the text of the specification: the content
`https://town.plattekill.ny.us/wp-content/uploads/2006/01/jan-minutes.pdf`
gives that URL and the file name `jan-minutes.pdf`. -/
theorem C1_first_match_witness :
    (Attachment.mk "" "").UnmarshalXML
        (Except.ok "https://town.plattekill.ny.us/wp-content/uploads/2006/01/jan-minutes.pdf") =
      (none, { URL := "https://town.plattekill.ny.us/wp-content/uploads/2006/01/jan-minutes.pdf",
               Filename := "jan-minutes.pdf" }) := by
  obtain ⟨whole, g1, g2, g3, g4, later, hall, _, hres⟩ := C1_first_match (Attachment.mk "" "")
    "https://town.plattekill.ny.us/wp-content/uploads/2006/01/jan-minutes.pdf" (by decide)
  rw [hres]
  have hv : urlregex.FindAllStringSubmatch
      "https://town.plattekill.ny.us/wp-content/uploads/2006/01/jan-minutes.pdf" (-1) =
      [["https://town.plattekill.ny.us/wp-content/uploads/2006/01/jan-minutes.pdf",
        "s", "2006", "01", "jan-minutes"]] := by decide
  rw [hv] at hall
  have h0 := (List.cons.inj hall).1
  simp only [List.cons.injEq] at h0
  obtain ⟨hw, _, _, _, hg4, _⟩ := h0
  subst hw
  subst hg4
  decide

/-- C7: when the text holds no match of `urlregex`, `UnmarshalXML` returns nil
and leaves `URL` and `Filename` as they were. -/
theorem C7_no_match (a : Attachment) (raw : String)
    (h : urlregex.FindStringSubmatch raw = none) :
    a.UnmarshalXML (Except.ok raw) = (none, a) := by
  rcases findAll_first urlregex raw with ⟨_, hnil⟩ | ⟨m, rest, hfirst, _⟩
  · simp [Attachment.UnmarshalXML, hnil]
  · rw [h] at hfirst
    cases hfirst

/-- C7 on a text with a link to another host: the attachment stays empty. -/
theorem C7_no_match_witness :
    (Attachment.mk "" "").UnmarshalXML
        (Except.ok "<p>See <a href=\"http://example.org/uploads/2006/01/jan.pdf\">here</a></p>") =
      (none, Attachment.mk "" "") :=
  C7_no_match (Attachment.mk "" "")
    "<p>See <a href=\"http://example.org/uploads/2006/01/jan.pdf\">here</a></p>" (by decide)

/-- C4, the program at two texts without a literal dot where the pattern has
`.`: the text ending in `minutes-pdf` is accepted, `URL` is the whole text and
`Filename` is `minutes.pdf`, so `URL` does not end with `Filename` (nor with
`.pdf`), whatever stands before it; the text with host
`town-plattekill-ny-us` is accepted as well. -/
theorem C4_unescaped_dot :
    (Attachment.mk "" "").UnmarshalXML
        (Except.ok "http://town.plattekill.ny.us/wp-content/uploads/2006/01/minutes-pdf") =
      (none, { URL := "http://town.plattekill.ny.us/wp-content/uploads/2006/01/minutes-pdf",
               Filename := "minutes.pdf" }) ∧
    (∀ front : String,
      "http://town.plattekill.ny.us/wp-content/uploads/2006/01/minutes-pdf" ≠
        front ++ "minutes.pdf") ∧
    (Attachment.mk "" "").UnmarshalXML
        (Except.ok "https://town-plattekill-ny-us/wp-content/uploads/2006/01/a.pdf") =
      (none, { URL := "https://town-plattekill-ny-us/wp-content/uploads/2006/01/a.pdf",
               Filename := "a.pdf" }) := by
  refine ⟨by decide, ?_, by decide⟩
  intro front h
  have h2 := congrArg (fun s : String => s.data.reverse.take 4) h
  simp [String.data_append] at h2

/-! ## Properties of the date decoding -/

/-- C8: `PubDate.UnmarshalXML` returns nil whatever `DecodeElement` gives;
a text that `time.Parse` refuses leaves the value as it was (nil stays nil);
a text it accepts sets the time to the parsed value; and
`Mon, 02 Jan 2006 15:04:05 -0700` is parsed as 2006-01-02 15:04:05 at the
offset of -7 hours. -/
theorem C8_pubdate_unmarshal :
    (∀ (date : PubDate) (dec : Except DecodeError String),
      (date.UnmarshalXML dec).1 = none) ∧
    (∀ (date : PubDate) (raw : String), timeParseRFC1123Z raw = none →
      (date.UnmarshalXML (Except.ok raw)).2 = date) ∧
    (∀ (date : PubDate) (raw : String) (v : Time), timeParseRFC1123Z raw = some v →
      (date.UnmarshalXML (Except.ok raw)).2 = { time := some v }) ∧
    (PubDate.mk none).UnmarshalXML (Except.ok "Mon, 02 Jan 2006 15:04:05 -0700") =
      (none, { time := some (Time.mk 2006 1 2 15 4 5 0 (-25200)) }) := by
  refine ⟨?_, ?_, ?_, by decide⟩
  · intro date dec
    cases dec with
    | error e => rfl
    | ok raw =>
      simp only [PubDate.UnmarshalXML]
      cases timeParseRFC1123Z raw <;> rfl
  · intro date raw h
    simp [PubDate.UnmarshalXML, h]
  · intro date raw v h
    simp [PubDate.UnmarshalXML, h]

/-- C8 at two texts: the text `yesterday` does not parse and leaves the time
nil, the text `Tue, 29 Feb 2000 09:30:00 +0100` parses. -/
theorem C8_pubdate_unmarshal_witness :
    ((PubDate.mk none).UnmarshalXML (Except.ok "yesterday")).2 = PubDate.mk none ∧
    ((PubDate.mk none).UnmarshalXML (Except.ok "Tue, 29 Feb 2000 09:30:00 +0100")).2 =
      { time := some (Time.mk 2000 2 29 9 30 0 0 3600) } :=
  ⟨C8_pubdate_unmarshal.2.1 (PubDate.mk none) "yesterday" (by decide),
   C8_pubdate_unmarshal.2.2.1 (PubDate.mk none) "Tue, 29 Feb 2000 09:30:00 +0100"
     (Time.mk 2000 2 29 9 30 0 0 3600) (by decide)⟩

/-! ## Properties of the download loop -/

/-- An item whose name exists at the path `os.Stat` looks at (the bare file
name) is passed over and the files are unchanged. -/
theorem processItem_existing (env : Env) (outputFolder : String) (fs : FS) (item : Item)
    (filename : String) (hname : buildFilename item = some filename)
    (hex : (fs filename).isSome = true) :
    processItem env outputFolder fs item = some (fs, Outcome.alreadyExists) := by
  simp [processItem, hname, hex]

/-- An item without a time makes the loop panic at once. -/
theorem mainLoop_nil_time (env : Env) (outputFolder : String) (fs : FS)
    (title link desc : String) (att : Attachment) (cats : List String) (rest : List Item) :
    (mainLoop env outputFolder fs
      (Item.mk title link desc att cats { time := none } :: rest)).panicked = true ∧
    (mainLoop env outputFolder fs
      (Item.mk title link desc att cats { time := none } :: rest)).log = [] := by
  simp [mainLoop, processItem, buildFilename, PubDate.String]

/-- C5, the program with the output folder `out/`: the destination
`out/200612-1545` of `sampleItem` exists with contents 1, 2, 3, the path
`200612-1545` that `os.Stat` looks at does not; the item is not skipped, the
download is made and the old contents are replaced by the downloaded bytes. -/
theorem C5_existing_destination_overwritten :
    buildFilename sampleItem = some "200612-1545" ∧
    oldFiles ("out/" ++ "200612-1545") = some [1, 2, 3] ∧
    (processItem sampleEnv "out/" oldFiles sampleItem).map
        (fun r => (r.1 ("out/" ++ "200612-1545"), r.2)) =
      some (some [37, 80, 68, 70], Outcome.downloaded 4) := by
  decide

/-- C6, the program on a feed whose first item has an unparseable `pubDate`:
that item has no time, the loop panics on it, nothing is logged and the
second item is never handled (its file is not created), although alone it
would be downloaded. -/
theorem C6_absent_date_panics :
    undatedItem.PubDate.time = none ∧
    (mainLoop sampleEnv "" noFiles [undatedItem, sampleItem]).panicked = true ∧
    (mainLoop sampleEnv "" noFiles [undatedItem, sampleItem]).log = [] ∧
    (mainLoop sampleEnv "" noFiles [undatedItem, sampleItem]).fs "200612-1545" = none ∧
    (mainLoop sampleEnv "" noFiles [sampleItem]).panicked = false ∧
    (mainLoop sampleEnv "" noFiles [sampleItem]).log = [Outcome.downloaded 4] ∧
    (mainLoop sampleEnv "" noFiles [sampleItem]).fs "200612-1545" =
      some [37, 80, 68, 70] := by
  decide

/-- C10: the file is created before the download.  Take an item with the
name `filename` whose destination `outputFolder ++ filename` does not exist,
for which the check of line 142 finds nothing (with the empty output folder
that is the same fact), `os.Create` succeeds, and then `http.Get` fails or
`io.Copy` reports an error after writing `body`.  Then the round ends in the
branch of the failed fetch or copy with the files changed in exactly one
place: the destination now exists, empty when `http.Get` failed and holding
`body` when the copy failed.  With the empty output folder a further round
for the same item, in any world, finds the file and skips the item. -/
theorem C10_created_before_fetch (env : Env) (outputFolder : String) (fs : FS)
    (item : Item) (filename : String)
    (hname : buildFilename item = some filename)
    (hnew : fs (outputFolder ++ filename) = none)
    (hstat : fs filename = none)
    (hcreate : env.createFails (outputFolder ++ filename) = false)
    (hfetch : env.get item.Attachment.URL = none ∨
      ∃ body : Bytes, env.get item.Attachment.URL = some (body, true)) :
    ∃ (data : Bytes) (o : Outcome),
      processItem env outputFolder fs item =
        some (fs.write (outputFolder ++ filename) data, o) ∧
      (o = Outcome.getError ∨ o = Outcome.copyError) ∧
      (fs.write (outputFolder ++ filename) data) (outputFolder ++ filename) = some data ∧
      (env.get item.Attachment.URL = none → data = [] ∧ o = Outcome.getError) ∧
      (∀ body : Bytes, env.get item.Attachment.URL = some (body, true) →
        data = body ∧ o = Outcome.copyError) ∧
      (∀ q : String, q ≠ outputFolder ++ filename →
        (fs.write (outputFolder ++ filename) data) q = fs q) ∧
      fs.write (outputFolder ++ filename) data ≠ fs ∧
      (outputFolder = "" → ∀ env2 : Env,
        processItem env2 "" (fs.write (outputFolder ++ filename) data) item =
          some (fs.write (outputFolder ++ filename) data, Outcome.alreadyExists)) := by
  have hwrite : ∀ data : Bytes,
      (fs.write (outputFolder ++ filename) data) (outputFolder ++ filename) = some data := by
    intro data; simp [FS.write]
  have hother : ∀ (data : Bytes) (q : String), q ≠ outputFolder ++ filename →
      (fs.write (outputFolder ++ filename) data) q = fs q := by
    intro data q hq; simp [FS.write, hq]
  have hchanged : ∀ data : Bytes, fs.write (outputFolder ++ filename) data ≠ fs := by
    intro data heq
    have h := hwrite data
    rw [heq, hnew] at h
    cases h
  have hlater : ∀ data : Bytes, outputFolder = "" → ∀ env2 : Env,
      processItem env2 "" (fs.write (outputFolder ++ filename) data) item =
        some (fs.write (outputFolder ++ filename) data, Outcome.alreadyExists) := by
    intro data hout env2
    subst hout
    apply processItem_existing env2 "" _ item filename hname
    have h := hwrite data
    have he : ("" : String) ++ filename = filename := by simp
    rw [he] at h ⊢
    simp [h]
  rcases hfetch with hget | ⟨body, hget⟩
  · refine ⟨[], Outcome.getError, ?_, Or.inl rfl, hwrite [], fun _ => ⟨rfl, rfl⟩, ?_,
      hother [], hchanged [], hlater []⟩
    · simp [processItem, hname, hstat, hcreate, hget]
    · intro body hb
      rw [hget] at hb
      cases hb
  · refine ⟨body, Outcome.copyError, ?_, Or.inr rfl, hwrite body, ?_, ?_,
      hother body, hchanged body, hlater body⟩
    · simp [processItem, hname, hstat, hcreate, hget]
    · intro hn
      rw [hget] at hn
      cases hn
    · intro body2 hb
      rw [hget] at hb
      simp only [Option.some.injEq, Prod.mk.injEq, and_true] at hb
      exact ⟨hb, rfl⟩

/-- C10 in two worlds, with no file at the start and the empty output folder.
When the network is down, the round for `sampleItem` ends in the branch of
the failed `http.Get` and leaves the empty file `200612-1545`; when the
download breaks off after two bytes, it ends in the branch of the failed
copy and leaves the file with these two bytes.  In both cases the files have
changed and the next round skips the item. -/
theorem C10_created_before_fetch_witness :
    (∃ (data : Bytes) (o : Outcome),
      processItem offlineEnv "" noFiles sampleItem =
        some (noFiles.write ("" ++ "200612-1545") data, o) ∧
      (o = Outcome.getError ∨ o = Outcome.copyError) ∧
      (noFiles.write ("" ++ "200612-1545") data) ("" ++ "200612-1545") = some data ∧
      (offlineEnv.get sampleItem.Attachment.URL = none → data = [] ∧ o = Outcome.getError) ∧
      (∀ body : Bytes, offlineEnv.get sampleItem.Attachment.URL = some (body, true) →
        data = body ∧ o = Outcome.copyError) ∧
      (∀ q : String, q ≠ "" ++ "200612-1545" →
        (noFiles.write ("" ++ "200612-1545") data) q = noFiles q) ∧
      noFiles.write ("" ++ "200612-1545") data ≠ noFiles ∧
      ("" = "" → ∀ env2 : Env,
        processItem env2 "" (noFiles.write ("" ++ "200612-1545") data) sampleItem =
          some (noFiles.write ("" ++ "200612-1545") data, Outcome.alreadyExists))) ∧
    (∃ (data : Bytes) (o : Outcome),
      processItem brokenEnv "" noFiles sampleItem =
        some (noFiles.write ("" ++ "200612-1545") data, o) ∧
      (o = Outcome.getError ∨ o = Outcome.copyError) ∧
      (noFiles.write ("" ++ "200612-1545") data) ("" ++ "200612-1545") = some data ∧
      (brokenEnv.get sampleItem.Attachment.URL = none → data = [] ∧ o = Outcome.getError) ∧
      (∀ body : Bytes, brokenEnv.get sampleItem.Attachment.URL = some (body, true) →
        data = body ∧ o = Outcome.copyError) ∧
      (∀ q : String, q ≠ "" ++ "200612-1545" →
        (noFiles.write ("" ++ "200612-1545") data) q = noFiles q) ∧
      noFiles.write ("" ++ "200612-1545") data ≠ noFiles ∧
      ("" = "" → ∀ env2 : Env,
        processItem env2 "" (noFiles.write ("" ++ "200612-1545") data) sampleItem =
          some (noFiles.write ("" ++ "200612-1545") data, Outcome.alreadyExists))) :=
  ⟨C10_created_before_fetch offlineEnv "" noFiles sampleItem "200612-1545"
      (by decide) (by rfl) (by rfl) (by rfl) (Or.inl rfl),
   C10_created_before_fetch brokenEnv "" noFiles sampleItem "200612-1545"
      (by decide) (by rfl) (by rfl) (by rfl) (Or.inr ⟨[37, 80], rfl⟩)⟩

end WPFeed
